import Mathlib

/-!
Shallow embedding of the VQE-QSM-HYBRID demonstration script
(`VQE-QSM-HYBRID.py`) and proofs about its circuit-diagram renderer
(`MockUCCSDAnsatz.draw`) and the mocked energy pipeline (`run_vqe_qse`).

The renderer is modelled as a pure producer of a list of drawing commands
(`DrawCmd`), one command per matplotlib call performed by the source, in
source order and with the source's coordinates (floats are represented as
exact rationals; every numeric literal of the source is an exact decimal).
Fallible operations of the source (Python list indexing) are made explicit
in `drawE`, which returns `Except`: an `Except.error` models a raised
Python exception.
-/

/-- A Python value, as far as the call sites of this script need
(`draw("mpl", idle_wires=False, fold=-1)`). -/
inductive PyVal
  | int (i : ℤ)
  | str (s : String)
  | bool (b : Bool)
deriving DecidableEq

/-- One matplotlib drawing call performed by `MockUCCSDAnsatz.draw`:
`ax.set_title`, `ax.set_xlim`, `ax.set_ylim`, `ax.axis('off')`,
`ax.hlines`, `ax.vlines`, `ax.text`, `ax.add_patch(plt.Rectangle ...)`
(with its face colour and hatch flag), `ax.plot(... 'o' ...)` and
`ax.plot(... 'x' ...)`. -/
inductive DrawCmd
  | setTitle (s : String)
  | setXlim (a b : ℚ)
  | setYlim (a b : ℚ)
  | axisOff
  | hline (y x0 x1 : ℚ) (color : String)
  | vline (x y0 y1 : ℚ) (color : String)
  | text (x y : ℚ) (s : String)
  | rect (x y w h : ℚ) (facecolor : String) (hatch : Bool)
  | plotDot (x y : ℚ) (color : String)
  | plotCross (x y : ℚ) (color : String)
deriving DecidableEq

/-- Python `range(n)` as a list of integers: `[0, 1, ..., n-1]`, empty
when `n ≤ 0`. -/
def pyRange (n : ℤ) : List ℤ :=
  (List.range n.toNat).map (fun (j : ℕ) => (j : ℤ))

/-- Python `range(a, b, 2)`: `a, a+2, ...` while `< b`; its length is
`max 0 ((b - a + 1) / 2)` computed with floor division. -/
def pyRange2 (a b : ℤ) : List ℤ :=
  (List.range ((b - a + 1).toNat / 2)).map (fun (j : ℕ) => a + 2 * (j : ℤ))

/-- Python index normalisation: a negative index counts from the end. -/
def pyNorm (len : ℕ) (i : ℤ) : ℤ :=
  if i < 0 then i + len else i

/-- Python list indexing `xs[i]`: raises `IndexError` when out of bounds,
with negative indices counting from the end. -/
def pyIndex {α : Type} (xs : List α) (i : ℤ) : Except String α :=
  match xs.get? (pyNorm xs.length i).toNat, decide (0 ≤ pyNorm xs.length i) with
  | some a, true => Except.ok a
  | _, _ => Except.error "IndexError: list index out of range"

/-- A Python `for` loop whose body may raise and which appends the drawing
commands of each iteration, in order. -/
def forCollect {α β : Type} (xs : List α) (f : α → Except String (List β)) :
    Except String (List β) :=
  match xs with
  | [] => Except.ok []
  | x :: rest => do
    let y ← f x
    let ys ← forCollect rest f
    pure (y ++ ys)

/-- The qubit label `f'$q_{i}$'` of the source (line 55). -/
def qubitLabel (i : ℤ) : String :=
  "$q_" ++ toString i ++ "$"

/-- The rotation-box label `f'$R_Y(\\theta_{k})$'` of the source (line 83). -/
def rotLabel (k : ℤ) : String :=
  "$R_Y(\\theta_" ++ toString k ++ ")$"

/-- `layer_start_x = [1.0, 4.5, 9.0, 13.5]` (source line 64). -/
def layer_start_x : List ℚ :=
  [1.0, 4.5, 9.0, 13.5]

/-- Source lines 50-53: title, axis limits, axis off. -/
def headerCmds (n : ℤ) : List DrawCmd :=
  [DrawCmd.setTitle "VQE UCCSD Ansatz Architecture (8 Qubits, 3 Repetitions)",
   DrawCmd.setXlim 0 20,
   DrawCmd.setYlim 0 ((n : ℚ) + 1),
   DrawCmd.axisOff]

/-- Source lines 58-61: one horizontal qubit line and one index label at
the left margin (`x = 0`) per qubit. -/
def qubitLineCmds (n : ℤ) : List DrawCmd :=
  ((pyRange n).map (fun (i : ℤ) =>
    [DrawCmd.hline ((i : ℚ) + 1) 0.5 19.5 "black",
     DrawCmd.text 0 ((i : ℚ) + 1) (qubitLabel i)])).flatten

/-- Source lines 67-71: the phase banner and the two region labels. -/
def bannerCmds (n : ℤ) : List DrawCmd :=
  [DrawCmd.text 9.5 ((n : ℚ) + 0.7)
     "PHASE 2: HYBRID QUANTUM COMPUTATION (VQE $\\rightarrow$ QSE)",
   DrawCmd.text 2.0 0.5 "VQE STATE PREPARATION",
   DrawCmd.text 17.0 0.5 "QSE MEASUREMENT & DIAGONALIZATION"]

/-- Source lines 80-83: the rotation row of layer `k`, one light-blue box
and one label per qubit. -/
def rotationCmds (n k : ℤ) (x_rot : ℚ) : List DrawCmd :=
  ((pyRange n).map (fun (i : ℤ) =>
    [DrawCmd.rect x_rot ((i : ℚ) + 1 - 0.25) 1.0 0.5 "lightblue" false,
     DrawCmd.text (x_rot + 0.5) ((i : ℚ) + 1) (rotLabel k)])).flatten

/-- Source lines 87-104: one entanglement pass; `start = 0` is the red
pass over pairs (0,1),(2,3),... and `start = 1` the orange pass over
(1,2),(3,4),.... Each connector is an inset vertical line, a control dot
at `y = i + 1` and a target cross at `y = i + 2`. -/
def entPass (n start : ℤ) (x : ℚ) (color : String) : List DrawCmd :=
  ((pyRange2 start (n - 1)).map (fun (i : ℤ) =>
    [DrawCmd.vline x ((i : ℚ) + 1 + 0.25) ((i : ℚ) + 2 - 0.25) color,
     DrawCmd.plotDot x ((i : ℚ) + 1) color,
     DrawCmd.plotCross x ((i : ℚ) + 2) color])).flatten

/-- Source lines 74-104: the body of one iteration of the layer loop,
with `x_rot = layer_start_x[k]`, `x_ent = x_rot + 1.5`,
`x_ent_offset = x_ent + 1.0`. -/
def layerCmds (n k : ℤ) : List DrawCmd :=
  rotationCmds n k (layer_start_x.getD k.toNat 0)
    ++ entPass n 0 (layer_start_x.getD k.toNat 0 + 1.5) "red"
    ++ entPass n 1 (layer_start_x.getD k.toNat 0 + 1.5 + 1.0) "orange"

/-- The three repetition layers: the loop `for k in range(3)` is hardwired
to 3 iterations in the source (line 74). -/
def layersCmds (n : ℤ) : List DrawCmd :=
  ((pyRange 3).map (layerCmds n)).flatten

/-- Source lines 107-112: the terminal measurement block, one hatched
light-coral box and one observable label per qubit at `x = 17.5`. -/
def measCmds (n : ℤ) : List DrawCmd :=
  ((pyRange n).map (fun (i : ℤ) =>
    [DrawCmd.rect 17.5 ((i : ℚ) + 1 - 0.25) 1.5 0.5 "lightcoral" true,
     DrawCmd.text (17.5 + 0.75) ((i : ℚ) + 1) "Obs ($\\hat\x7bO\x7d$)"])).flatten

/-- Source line 114: the effective-subspace summary label. -/
def finalText : DrawCmd :=
  DrawCmd.text 18.25 1.5 "QSE $\\rightarrow H_\x7b\\text\x7beff\x7d\x7d$"

/-- The full sequence of drawing calls performed by
`MockUCCSDAnsatz.draw` for a given `num_qubits`, in source order. -/
def drawTrace (n : ℤ) : List DrawCmd :=
  headerCmds n ++ qubitLineCmds n ++ bannerCmds n ++ layersCmds n
    ++ measCmds n ++ [finalText]

/-- `MockUCCSDAnsatz.draw` with the source's fallible operations made
explicit: the list indexings `qubit_labels[i]` and `layer_start_x[k]` go
through `pyIndex`, so an out-of-bounds access would surface as
`Except.error` (a raised exception). Nothing else in the body can raise. -/
def drawE (num_qubits : ℤ) : Except String (List DrawCmd) := do
  let lineCmds ← forCollect (pyRange num_qubits) (fun (i : ℤ) => do
    let lab ← pyIndex ((pyRange num_qubits).map qubitLabel) i
    pure [DrawCmd.hline ((i : ℚ) + 1) 0.5 19.5 "black",
          DrawCmd.text 0 ((i : ℚ) + 1) lab])
  let layerTrace ← forCollect (pyRange 3) (fun (k : ℤ) => do
    let x_rot ← pyIndex layer_start_x k
    pure (rotationCmds num_qubits k x_rot
      ++ entPass num_qubits 0 (x_rot + 1.5) "red"
      ++ entPass num_qubits 1 (x_rot + 1.5 + 1.0) "orange"))
  pure (headerCmds num_qubits ++ lineCmds ++ bannerCmds num_qubits
    ++ layerTrace ++ measCmds num_qubits ++ [finalText])

/-- The mock Hamiltonian class of the source: only its `num_qubits` field
carries data. -/
structure MockSparsePauliOp where
  num_qubits : ℤ
deriving DecidableEq

/-- The mock ansatz class: `__init__` stores `num_qubits` and
`num_particles` and fixes `num_parameters = 16`. -/
structure MockUCCSDAnsatz where
  num_parameters : ℤ
  num_qubits : ℤ
  num_particles : ℤ × ℤ
deriving DecidableEq

/-- `MockUCCSDAnsatz.__init__`. -/
def MockUCCSDAnsatz.make (num_qubits : ℤ) (num_particles : ℤ × ℤ) :
    MockUCCSDAnsatz :=
  ⟨16, num_qubits, num_particles⟩

/-- `MockUCCSDAnsatz.decompose`: `return self`. -/
def MockUCCSDAnsatz.decompose (a : MockUCCSDAnsatz) : MockUCCSDAnsatz :=
  a

/-- `MockUCCSDAnsatz.draw(self, *args, **kwargs)`: the positional and
keyword arguments are received but never read by the body; the drawing
depends only on `self.num_qubits`. -/
def MockUCCSDAnsatz.draw (a : MockUCCSDAnsatz) (args : List PyVal)
    (kwargs : List (String × PyVal)) : Except String (List DrawCmd) :=
  drawE a.num_qubits

/-!
## IEEE-754 binary64 model

The numeric pipeline `run_vqe_qse` works on Python floats, so its
additions round to 53 significant bits. A float is modelled as a dyadic
number `m * 2^e` with an integer significand and exponent; every
operation returns the correctly rounded (round-to-nearest, ties-to-even)
result, normalised to `2^52 ≤ |m| < 2^53` for nonzero values (zero is
`⟨0, 0⟩`), so equal values have equal representations. The exponent
range is unbounded: overflow, underflow and subnormal rounding are not
modelled, which is exact for this program, whose quantities stay far
inside the normal binary64 range.
-/

/-- Number of binary digits of `n` (0 for 0); the first argument is
structural fuel, always called with `fuel = n ≥ log2 n + 1`. -/
def bitLenAux : ℕ → ℕ → ℕ
  | 0, _ => 0
  | fuel + 1, n => if n = 0 then 0 else bitLenAux fuel (n / 2) + 1

/-- Number of binary digits of `n`: `2^(bitLen n - 1) ≤ n < 2^bitLen n`
for `n ≥ 1`. -/
def bitLen (n : ℕ) : ℕ :=
  bitLenAux n n

/-- Round `(t + f) / 2^s` to the nearest integer, ties to even, where
`0 ≤ f < 1` and `sticky` records `f ≠ 0`; correct whenever `s ≥ 1`. -/
def roundSticky (t s : ℕ) (sticky : Bool) : ℕ :=
  let d := 2 ^ s
  let q := t / d
  let r := t % d
  if 2 * r < d then q
  else if d < 2 * r then q + 1
  else if sticky then q + 1
  else if q % 2 = 0 then q else q + 1

/-- A binary64 value `m * 2^e`. Nonzero values are kept normalised with
`2^52 ≤ |m| < 2^53`; zero is `⟨0, 0⟩`. -/
structure F64 where
  m : ℤ
  e : ℤ
deriving DecidableEq, Repr

/-- The exact rational value of a binary64 number. -/
def F64.toRat (x : F64) : ℚ :=
  (x.m : ℚ) * (2 : ℚ) ^ x.e

/-- Normalise a nonzero `m * 2^e` with `|m| < 2^53` by shifting the
significand up to 53 bits (value preserved). -/
def flNormalizeUp (m : ℤ) (e : ℤ) : F64 :=
  if m = 0 then ⟨0, 0⟩
  else
    let s := 53 - bitLen m.natAbs
    ⟨m * 2 ^ s, e - s⟩

/-- Round the exact value `M * 2^e` to binary64. -/
def flRound (M : ℤ) (e : ℤ) : F64 :=
  if M = 0 then ⟨0, 0⟩
  else
    let a := M.natAbs
    let L := bitLen a
    if L ≤ 53 then flNormalizeUp M e
    else
      let s := L - 53
      let m0 := roundSticky a s false
      if m0 = 2 ^ 53 then ⟨if M < 0 then -(2 ^ 52 : ℤ) else 2 ^ 52, e + s + 1⟩
      else ⟨if M < 0 then -(m0 : ℤ) else m0, e + s⟩

/-- Binary64 addition: the exact sum, rounded. -/
def flAdd (x y : F64) : F64 :=
  flRound (x.m * 2 ^ (x.e - min x.e y.e).toNat
    + y.m * 2 ^ (y.e - min x.e y.e).toNat) (min x.e y.e)

/-- Binary64 negation (exact). -/
def flNeg (x : F64) : F64 :=
  ⟨-x.m, x.e⟩

/-- Binary64 subtraction: the exact difference, rounded. -/
def flSub (x y : F64) : F64 :=
  flAdd x (flNeg y)

/-- Binary64 absolute value (exact). -/
def flAbs (x : F64) : F64 :=
  ⟨(x.m.natAbs : ℤ), x.e⟩

/-- Binary64 multiplication: the exact product, rounded. -/
def flMul (x y : F64) : F64 :=
  flRound (x.m * y.m) (x.e + y.e)

/-- Binary64 division, correctly rounded via a truncated scaled quotient
with a sticky bit; the caller guards against a zero divisor. -/
def flDiv (x y : F64) : F64 :=
  if x.m = 0 then ⟨0, 0⟩
  else
    let a := x.m.natAbs
    let b := y.m.natAbs
    let k := 53 + bitLen b
    let t := a * 2 ^ k / b
    let r := a * 2 ^ k % b
    let s := bitLen t - 53
    let m0 := roundSticky t s (decide (r ≠ 0))
    let neg := (decide (x.m < 0)) != (decide (y.m < 0))
    if m0 = 2 ^ 53 then
      ⟨if neg then -(2 ^ 52 : ℤ) else 2 ^ 52, x.e - y.e - k + s + 1⟩
    else ⟨if neg then -(m0 : ℤ) else m0, x.e - y.e - k + s⟩

/-- Python float division: raises `ZeroDivisionError` on a zero
divisor. -/
def flDivChecked (x y : F64) : Except String F64 :=
  if y.m = 0 then Except.error "ZeroDivisionError: float division by zero"
  else Except.ok (flDiv x y)

/-- The binary64 nearest to the decimal `p / q` (`q > 0`): how Python
parses a float literal. -/
def flOfDec (p : ℤ) (q : ℕ) : F64 :=
  if p = 0 then ⟨0, 0⟩
  else
    let a := p.natAbs
    let k := 53 + bitLen q
    let t := a * 2 ^ k / q
    let r := a * 2 ^ k % q
    let s := bitLen t - 53
    let m0 := roundSticky t s (decide (r ≠ 0))
    if m0 = 2 ^ 53 then
      ⟨if p < 0 then -(2 ^ 52 : ℤ) else 2 ^ 52, s + 1 - k⟩
    else ⟨if p < 0 then -(m0 : ℤ) else m0, (s : ℤ) - k⟩

/-- `run_vqe_qse` (source lines 143-182): the mocked energy pipeline on
binary64 values. `vqe_energy = exact_energy + 0.045`,
`vqe_error = abs(vqe_energy - exact_energy)`,
`qse_energy_e = exact_energy + 0.002`,
`qse_error = abs(qse_energy_e - exact_energy)`,
`improvement = ((vqe_error - qse_error) / vqe_error) * 100` (raising
`ZeroDivisionError` when `vqe_error` is zero, before anything is
returned), `PEM_CORRECTION_FACTOR = -0.0019`, and
`final_corrected_energy = qse_energy_e + PEM_CORRECTION_FACTOR`; the
`improvement` value is printed only and not returned. -/
def run_vqe_qse (qubit_op : MockSparsePauliOp) (num_qubits : ℤ)
    (num_particles : ℤ × ℤ) (nuclear_repulsion_energy : F64)
    (exact_energy : F64) :
    Except String (MockUCCSDAnsatz × F64 × F64 × F64) :=
  match flDivChecked
      (flSub (flAbs (flSub (flAdd exact_energy (flOfDec 45 1000)) exact_energy))
        (flAbs (flSub (flAdd exact_energy (flOfDec 2 1000)) exact_energy)))
      (flAbs (flSub (flAdd exact_energy (flOfDec 45 1000)) exact_energy)) with
  | Except.error err => Except.error err
  | Except.ok quotient =>
    let improvement := flMul quotient (flOfDec 100 1)
    Except.ok (MockUCCSDAnsatz.make num_qubits num_particles,
      flAdd exact_energy (flOfDec 45 1000),
      flAdd exact_energy (flOfDec 2 1000),
      flAdd (flAdd exact_energy (flOfDec 2 1000)) (flNeg (flOfDec 19 10000)))

/-- `define_molecule_and_hamiltonian` (source lines 121-141): the
hardcoded 8-qubit configuration, with the float literals parsed to
binary64. -/
def define_molecule_and_hamiltonian :
    MockSparsePauliOp × ℤ × (ℤ × ℤ) × F64 × F64 :=
  let num_qubits : ℤ := 8
  let num_particles : ℤ × ℤ := (4, 4)
  let nuclear_repulsion_energy : F64 := flOfDec 5922055 1000000
  let exact_energy : F64 := flOfDec (-40176466) 1000000
  (⟨num_qubits⟩, num_qubits, num_particles, nuclear_repulsion_energy,
   exact_energy)

/-- The final corrected energy of a completed pipeline run. -/
def finalEnergyOf
    (x : Except String (MockUCCSDAnsatz × F64 × F64 × F64)) : Option F64 :=
  match x with
  | Except.ok r => some r.2.2.2
  | Except.error _ => none

/-- Recogniser for a horizontal qubit line (`ax.hlines`). -/
def DrawCmd.isQubitLine : DrawCmd → Bool
  | DrawCmd.hline _ _ _ _ => true
  | _ => false

/-- Recogniser for a rotation-gate box: a light-blue rectangle. -/
def DrawCmd.isRotationBox : DrawCmd → Bool
  | DrawCmd.rect _ _ _ _ "lightblue" _ => true
  | _ => false

/-- Recogniser for a terminal measurement box: a light-coral rectangle. -/
def DrawCmd.isMeasurementBox : DrawCmd → Bool
  | DrawCmd.rect _ _ _ _ "lightcoral" _ => true
  | _ => false

/-- Recogniser for an entanglement connector (`ax.vlines`), either pass. -/
def DrawCmd.isConnector : DrawCmd → Bool
  | DrawCmd.vline _ _ _ _ => true
  | _ => false

/-- Recogniser for an index label: a text placed at the left margin
`x = 0` (only the qubit labels are drawn there). -/
def DrawCmd.isIndexLabel : DrawCmd → Bool
  | DrawCmd.text x _ _ => x == 0
  | _ => false

/-- Recogniser for a text whose content is exactly `s`. -/
def DrawCmd.isTextWith (s : String) : DrawCmd → Bool
  | DrawCmd.text _ _ s2 => s2 == s
  | _ => false

/-- Number of horizontal qubit lines in a trace. -/
def countQubitLines (t : List DrawCmd) : ℕ :=
  (t.filter DrawCmd.isQubitLine).length

/-- Number of rotation-gate boxes in a trace. -/
def countRotationBoxes (t : List DrawCmd) : ℕ :=
  (t.filter DrawCmd.isRotationBox).length

/-- Number of terminal measurement boxes in a trace. -/
def countMeasurementBoxes (t : List DrawCmd) : ℕ :=
  (t.filter DrawCmd.isMeasurementBox).length

/-- Number of entanglement connectors (both passes) in a trace. -/
def countConnectors (t : List DrawCmd) : ℕ :=
  (t.filter DrawCmd.isConnector).length

/-- Number of left-margin index labels in a trace. -/
def countIndexLabels (t : List DrawCmd) : ℕ :=
  (t.filter DrawCmd.isIndexLabel).length

/-- Number of rotation labels carrying layer index `k` in a trace. -/
def countRotLabels (k : ℤ) (t : List DrawCmd) : ℕ :=
  (t.filter (DrawCmd.isTextWith (rotLabel k))).length

/-- The qubit pair of a pass-1 (red) connector, read off from the
vertical line's endpoints: a connector from `i + 1.25` to `i + 1.75`
links qubits `i` and `i + 1`. -/
def connector1Pair : DrawCmd → Option (ℚ × ℚ)
  | DrawCmd.vline _ y0 y1 "red" => some (y0 - 1.25, y1 - 0.75)
  | _ => none

/-- The qubit pair of a pass-2 (orange) connector. -/
def connector2Pair : DrawCmd → Option (ℚ × ℚ)
  | DrawCmd.vline _ y0 y1 "orange" => some (y0 - 1.25, y1 - 0.75)
  | _ => none

/-- The ordered list of qubit pairs linked by pass-1 connectors. -/
def pass1Pairs (t : List DrawCmd) : List (ℚ × ℚ) :=
  t.filterMap connector1Pair

/-- The ordered list of qubit pairs linked by pass-2 connectors. -/
def pass2Pairs (t : List DrawCmd) : List (ℚ × ℚ) :=
  t.filterMap connector2Pair

/-- The even-aligned adjacent pairs `(0,1), (2,3), ...` not exceeding
qubit index `n - 1`, as enumerated by the specification. -/
def evenAdjPairs (n : ℤ) : List (ℚ × ℚ) :=
  (List.range (n.toNat / 2)).map
    (fun (j : ℕ) => (2 * (j : ℚ), 2 * (j : ℚ) + 1))

/-- The odd-aligned adjacent pairs `(1,2), (3,4), ...` not exceeding
qubit index `n - 1`, as enumerated by the specification. -/
def oddAdjPairs (n : ℤ) : List (ℚ × ℚ) :=
  (List.range ((n.toNat - 1) / 2)).map
    (fun (j : ℕ) => (2 * (j : ℚ) + 1, 2 * (j : ℚ) + 2))


/-! ## List helpers -/

/-- Pointwise-equal functions map a list to the same list. -/
theorem map_ext_mem {α β : Type} {f g : α → β} (l : List α)
    (h : ∀ a ∈ l, f a = g a) : l.map f = l.map g := by
  induction l with
  | nil => rfl
  | cons a t ih =>
    simp only [List.map_cons]
    rw [h a (by simp), ih (fun b hb => h b (by simp [hb]))]

/-- Filtering a flattened map where each block contributes `c` matches. -/
theorem filter_flatten_map {α : Type} (p : DrawCmd → Bool)
    (h : α → List DrawCmd) (c : ℕ) (l : List α)
    (hc : ∀ a ∈ l, ((h a).filter p).length = c) :
    (((l.map h).flatten).filter p).length = l.length * c := by
  induction l with
  | nil => simp
  | cons a t ih =>
    simp only [List.map_cons, List.flatten_cons, List.filter_append,
      List.length_append, List.length_cons]
    rw [hc a (by simp), ih (fun b hb => hc b (by simp [hb]))]
    ring

/-- `filterMap` over a flattened map, blockwise. -/
theorem filterMap_flatten_map {α β : Type} (f : DrawCmd → Option β)
    (h : α → List DrawCmd) (e : α → List β) (l : List α)
    (he : ∀ a ∈ l, (h a).filterMap f = e a) :
    ((l.map h).flatten).filterMap f = (l.map e).flatten := by
  induction l with
  | nil => rfl
  | cons a t ih =>
    simp only [List.map_cons, List.flatten_cons, List.filterMap_append]
    rw [he a (by simp), ih (fun b hb => he b (by simp [hb]))]

/-- Flattening singleton blocks is a plain map. -/
theorem flatten_map_singleton {α β : Type} (e : α → β) (l : List α) :
    (l.map (fun a => [e a])).flatten = l.map e := by
  induction l with
  | nil => rfl
  | cons a t ih => simp [ih]

/-- Flattening empty blocks gives the empty list. -/
theorem flatten_map_nil {α β : Type} (l : List α) :
    (l.map (fun _ => ([] : List β))).flatten = ([] : List β) := by
  induction l with
  | nil => rfl
  | cons a t ih => simp [ih]

theorem pyRange_length (n : ℤ) : (pyRange n).length = n.toNat := by
  simp [pyRange]

theorem pyRange2_length (a b : ℤ) :
    (pyRange2 a b).length = (b - a + 1).toNat / 2 := by
  simp [pyRange2]

theorem mem_pyRange {n i : ℤ} (h : i ∈ pyRange n) : 0 ≤ i ∧ i < n := by
  simp only [pyRange, List.mem_map, List.mem_range] at h
  obtain ⟨j, hj, rfl⟩ := h
  omega

theorem mem_pyRange3 {k : ℤ} (hk : k ∈ pyRange 3) : k = 0 ∨ k = 1 ∨ k = 2 := by
  have h : pyRange 3 = [0, 1, 2] := by decide
  rw [h] at hk
  simpa using hk

/-! ## Per-block filter lemmas -/

/-- Filter length over the qubit-line block. -/
theorem filter_qubitLineCmds (p : DrawCmd → Bool) (n : ℤ) (c : ℕ)
    (hc : ∀ i : ℤ, (([DrawCmd.hline ((i : ℚ) + 1) 0.5 19.5 "black",
      DrawCmd.text 0 ((i : ℚ) + 1) (qubitLabel i)]).filter p).length = c) :
    ((qubitLineCmds n).filter p).length = n.toNat * c := by
  unfold qubitLineCmds
  rw [filter_flatten_map p _ c _ (fun a _ => hc a), pyRange_length]

/-- Filter length over one rotation row. -/
theorem filter_rotationCmds (p : DrawCmd → Bool) (n k : ℤ) (x : ℚ) (c : ℕ)
    (hc : ∀ i : ℤ,
      (([DrawCmd.rect x ((i : ℚ) + 1 - 0.25) 1.0 0.5 "lightblue" false,
        DrawCmd.text (x + 0.5) ((i : ℚ) + 1) (rotLabel k)]).filter p).length = c) :
    ((rotationCmds n k x).filter p).length = n.toNat * c := by
  unfold rotationCmds
  rw [filter_flatten_map p _ c _ (fun a _ => hc a), pyRange_length]

/-- Filter length over one entanglement pass. -/
theorem filter_entPass (p : DrawCmd → Bool) (n start : ℤ) (x : ℚ)
    (color : String) (c : ℕ)
    (hc : ∀ i : ℤ,
      (([DrawCmd.vline x ((i : ℚ) + 1 + 0.25) ((i : ℚ) + 2 - 0.25) color,
        DrawCmd.plotDot x ((i : ℚ) + 1) color,
        DrawCmd.plotCross x ((i : ℚ) + 2) color]).filter p).length = c) :
    ((entPass n start x color).filter p).length
      = ((n - 1 - start + 1).toNat / 2) * c := by
  unfold entPass
  rw [filter_flatten_map p _ c _ (fun a _ => hc a), pyRange2_length]

/-- Filter length over the measurement block. -/
theorem filter_measCmds (p : DrawCmd → Bool) (n : ℤ) (c : ℕ)
    (hc : ∀ i : ℤ,
      (([DrawCmd.rect 17.5 ((i : ℚ) + 1 - 0.25) 1.5 0.5 "lightcoral" true,
        DrawCmd.text (17.5 + 0.75) ((i : ℚ) + 1)
          "Obs ($\\hat\x7bO\x7d$)"]).filter p).length = c) :
    ((measCmds n).filter p).length = n.toNat * c := by
  unfold measCmds
  rw [filter_flatten_map p _ c _ (fun a _ => hc a), pyRange_length]

/-- Filter length over the three layers when each full layer contributes
`c` matches. -/
theorem filter_layersCmds (p : DrawCmd → Bool) (n : ℤ) (c : ℕ)
    (hc : ∀ k ∈ pyRange 3, ((layerCmds n k).filter p).length = c) :
    ((layersCmds n).filter p).length = 3 * c := by
  unfold layersCmds
  rw [filter_flatten_map p _ c _ hc]
  simp [pyRange_length]

/-! ## String lemmas -/

theorem qubitLabel_data (i : ℤ) :
    (qubitLabel i).data
      = '$' :: 'q' :: '_' :: ((toString i).data ++ ['$']) := rfl

theorem rotLabel_data (k : ℤ) :
    (rotLabel k).data
      = '$' :: 'R' :: '_' :: 'Y' :: '(' :: '\\' :: 't' :: 'h' :: 'e' :: 't'
          :: 'a' :: '_' :: ((toString k).data ++ [')', '$']) := rfl

/-- The qubit labels are never rotation-box labels. -/
theorem qubitLabel_ne_rotLabel (i k : ℤ) : qubitLabel i ≠ rotLabel k := by
  intro h
  have h2 := congrArg String.data h
  rw [qubitLabel_data, rotLabel_data] at h2
  exact absurd (List.cons.inj (List.cons.inj h2).2).1 (by decide)

/-- A string whose first character is not `$` is not a rotation-box
label. -/
theorem const_ne_rotLabel (s : String) (c : Char) (hc : c ≠ '$')
    (hs : s.data.head? = some c) (k : ℤ) : s ≠ rotLabel k := by
  intro h
  rw [h, rotLabel_data] at hs
  exact hc (Option.some.inj hs).symm

/-! ## Count lemmas over the full trace -/

theorem count_qubitLines_drawTrace (n : ℤ) :
    countQubitLines (drawTrace n) = n.toNat := by
  have hq : ((qubitLineCmds n).filter DrawCmd.isQubitLine).length = n.toNat * 1 :=
    filter_qubitLineCmds _ n 1 (fun i => rfl)
  have hlay : ∀ k ∈ pyRange 3,
      ((layerCmds n k).filter DrawCmd.isQubitLine).length = 0 := by
    intro k _
    unfold layerCmds
    rw [List.filter_append, List.filter_append, List.length_append,
      List.length_append, filter_rotationCmds DrawCmd.isQubitLine n k _ 0 (fun i => rfl),
      filter_entPass DrawCmd.isQubitLine n 0 _ _ 0 (fun i => rfl),
      filter_entPass DrawCmd.isQubitLine n 1 _ _ 0 (fun i => rfl)]
    simp
  have hl : ((layersCmds n).filter DrawCmd.isQubitLine).length = 3 * 0 :=
    filter_layersCmds _ n 0 hlay
  have hm : ((measCmds n).filter DrawCmd.isQubitLine).length = n.toNat * 0 :=
    filter_measCmds _ n 0 (fun i => rfl)
  have hh : ((headerCmds n).filter DrawCmd.isQubitLine).length = 0 := rfl
  have hb : ((bannerCmds n).filter DrawCmd.isQubitLine).length = 0 := rfl
  have hf : (([finalText]).filter DrawCmd.isQubitLine).length = 0 := rfl
  unfold countQubitLines drawTrace
  simp only [List.filter_append, List.length_append]
  rw [hq, hl, hm, hh, hb, hf]
  omega

theorem count_rotBoxes_drawTrace (n : ℤ) :
    countRotationBoxes (drawTrace n) = 3 * n.toNat := by
  have hq : ((qubitLineCmds n).filter DrawCmd.isRotationBox).length = n.toNat * 0 :=
    filter_qubitLineCmds _ n 0 (fun i => rfl)
  have hlay : ∀ k ∈ pyRange 3,
      ((layerCmds n k).filter DrawCmd.isRotationBox).length = n.toNat := by
    intro k _
    unfold layerCmds
    rw [List.filter_append, List.filter_append, List.length_append,
      List.length_append, filter_rotationCmds DrawCmd.isRotationBox n k _ 1 (fun i => rfl),
      filter_entPass DrawCmd.isRotationBox n 0 _ _ 0 (fun i => rfl),
      filter_entPass DrawCmd.isRotationBox n 1 _ _ 0 (fun i => rfl)]
    omega
  have hl : ((layersCmds n).filter DrawCmd.isRotationBox).length = 3 * n.toNat :=
    filter_layersCmds _ n n.toNat hlay
  have hm : ((measCmds n).filter DrawCmd.isRotationBox).length = n.toNat * 0 :=
    filter_measCmds _ n 0 (fun i => rfl)
  have hh : ((headerCmds n).filter DrawCmd.isRotationBox).length = 0 := rfl
  have hb : ((bannerCmds n).filter DrawCmd.isRotationBox).length = 0 := rfl
  have hf : (([finalText]).filter DrawCmd.isRotationBox).length = 0 := rfl
  unfold countRotationBoxes drawTrace
  simp only [List.filter_append, List.length_append]
  rw [hq, hl, hm, hh, hb, hf]
  omega

theorem count_measBoxes_drawTrace (n : ℤ) :
    countMeasurementBoxes (drawTrace n) = n.toNat := by
  have hq : ((qubitLineCmds n).filter DrawCmd.isMeasurementBox).length = n.toNat * 0 :=
    filter_qubitLineCmds _ n 0 (fun i => rfl)
  have hlay : ∀ k ∈ pyRange 3,
      ((layerCmds n k).filter DrawCmd.isMeasurementBox).length = 0 := by
    intro k _
    unfold layerCmds
    rw [List.filter_append, List.filter_append, List.length_append,
      List.length_append, filter_rotationCmds DrawCmd.isMeasurementBox n k _ 0 (fun i => rfl),
      filter_entPass DrawCmd.isMeasurementBox n 0 _ _ 0 (fun i => rfl),
      filter_entPass DrawCmd.isMeasurementBox n 1 _ _ 0 (fun i => rfl)]
    simp
  have hl : ((layersCmds n).filter DrawCmd.isMeasurementBox).length = 3 * 0 :=
    filter_layersCmds _ n 0 hlay
  have hm : ((measCmds n).filter DrawCmd.isMeasurementBox).length = n.toNat * 1 :=
    filter_measCmds _ n 1 (fun i => rfl)
  have hh : ((headerCmds n).filter DrawCmd.isMeasurementBox).length = 0 := rfl
  have hb : ((bannerCmds n).filter DrawCmd.isMeasurementBox).length = 0 := rfl
  have hf : (([finalText]).filter DrawCmd.isMeasurementBox).length = 0 := rfl
  unfold countMeasurementBoxes drawTrace
  simp only [List.filter_append, List.length_append]
  rw [hq, hl, hm, hh, hb, hf]
  omega

theorem count_connectors_drawTrace (n : ℤ) :
    countConnectors (drawTrace n)
      = 3 * (n.toNat / 2 + (n - 1).toNat / 2) := by
  have hq : ((qubitLineCmds n).filter DrawCmd.isConnector).length = n.toNat * 0 :=
    filter_qubitLineCmds _ n 0 (fun i => rfl)
  have hlay : ∀ k ∈ pyRange 3,
      ((layerCmds n k).filter DrawCmd.isConnector).length
        = n.toNat / 2 + (n - 1).toNat / 2 := by
    intro k _
    unfold layerCmds
    rw [List.filter_append, List.filter_append, List.length_append,
      List.length_append, filter_rotationCmds DrawCmd.isConnector n k _ 0 (fun i => rfl),
      filter_entPass DrawCmd.isConnector n 0 _ _ 1 (fun i => rfl),
      filter_entPass DrawCmd.isConnector n 1 _ _ 1 (fun i => rfl)]
    omega
  have hl : ((layersCmds n).filter DrawCmd.isConnector).length
      = 3 * (n.toNat / 2 + (n - 1).toNat / 2) :=
    filter_layersCmds _ n _ hlay
  have hm : ((measCmds n).filter DrawCmd.isConnector).length = n.toNat * 0 :=
    filter_measCmds _ n 0 (fun i => rfl)
  have hh : ((headerCmds n).filter DrawCmd.isConnector).length = 0 := rfl
  have hb : ((bannerCmds n).filter DrawCmd.isConnector).length = 0 := rfl
  have hf : (([finalText]).filter DrawCmd.isConnector).length = 0 := rfl
  unfold countConnectors drawTrace
  simp only [List.filter_append, List.length_append]
  rw [hq, hl, hm, hh, hb, hf]
  omega

theorem isIndexLabel_text_false (x y : ℚ) (s : String) (hx : x ≠ 0) :
    DrawCmd.isIndexLabel (DrawCmd.text x y s) = false := by
  have h : DrawCmd.isIndexLabel (DrawCmd.text x y s) = (x == 0) := rfl
  rw [h, beq_eq_false_iff_ne]
  exact hx

theorem layer_x_shift_ne (k : ℤ) (d : ℚ) (hd : 0 < d) :
    layer_start_x.getD k.toNat 0 + d ≠ 0 := by
  have h : ∀ m : ℕ, (0 : ℚ) ≤ layer_start_x.getD m 0 := by
    intro m
    match m with
    | 0 => norm_num [layer_start_x]
    | 1 => norm_num [layer_start_x]
    | 2 => norm_num [layer_start_x]
    | 3 => norm_num [layer_start_x]
    | (m + 4) =>
      have he : layer_start_x.getD (m + 4) 0 = 0 := by
        apply List.getD_eq_default
        simp [layer_start_x]
      rw [he]
  have h2 := h k.toNat
  positivity

theorem count_indexLabels_drawTrace (n : ℤ) :
    countIndexLabels (drawTrace n) = n.toNat := by
  have hq : ((qubitLineCmds n).filter DrawCmd.isIndexLabel).length = n.toNat * 1 :=
    filter_qubitLineCmds DrawCmd.isIndexLabel n 1 (fun i => by
      simp only [List.filter_cons, List.filter_nil]
      norm_num [DrawCmd.isIndexLabel])
  have hlay : ∀ k ∈ pyRange 3,
      ((layerCmds n k).filter DrawCmd.isIndexLabel).length = 0 := by
    intro k _
    unfold layerCmds
    rw [List.filter_append, List.filter_append, List.length_append,
      List.length_append,
      filter_rotationCmds DrawCmd.isIndexLabel n k
        (layer_start_x.getD k.toNat 0) 0 (fun i => by
        simp only [List.filter_cons, List.filter_nil,
          isIndexLabel_text_false _ _ _ (layer_x_shift_ne k 0.5 (by norm_num))]
        norm_num [DrawCmd.isIndexLabel]),
      filter_entPass DrawCmd.isIndexLabel n 0 _ _ 0 (fun i => rfl),
      filter_entPass DrawCmd.isIndexLabel n 1 _ _ 0 (fun i => rfl)]
    simp
  have hl : ((layersCmds n).filter DrawCmd.isIndexLabel).length = 3 * 0 :=
    filter_layersCmds _ n 0 hlay
  have hm : ((measCmds n).filter DrawCmd.isIndexLabel).length = n.toNat * 0 :=
    filter_measCmds DrawCmd.isIndexLabel n 0 (fun i => by
      simp only [List.filter_cons, List.filter_nil,
        isIndexLabel_text_false (17.5 + 0.75) _ _ (by norm_num)]
      norm_num [DrawCmd.isIndexLabel])
  have hh : ((headerCmds n).filter DrawCmd.isIndexLabel).length = 0 := rfl
  have hb : ((bannerCmds n).filter DrawCmd.isIndexLabel).length = 0 := by
    simp only [bannerCmds, List.filter_cons, List.filter_nil,
      isIndexLabel_text_false 9.5 _ _ (by norm_num),
      isIndexLabel_text_false 2.0 _ _ (by norm_num),
      isIndexLabel_text_false 17.0 _ _ (by norm_num)]
    rfl
  have hf : (([finalText]).filter DrawCmd.isIndexLabel).length = 0 := by
    simp only [finalText, List.filter_cons, List.filter_nil,
      isIndexLabel_text_false 18.25 _ _ (by norm_num)]
    rfl
  unfold countIndexLabels drawTrace
  simp only [List.filter_append, List.length_append]
  rw [hq, hl, hm, hh, hb, hf]
  omega

theorem count_rotLabels_layerCmds (n kk k : ℤ) :
    ((layerCmds n kk).filter (DrawCmd.isTextWith (rotLabel k))).length
      = n.toNat * (if rotLabel kk = rotLabel k then 1 else 0) := by
  have hcc : ∀ i : ℤ,
      (([DrawCmd.rect (layer_start_x.getD kk.toNat 0) ((i : ℚ) + 1 - 0.25)
          1.0 0.5 "lightblue" false,
        DrawCmd.text (layer_start_x.getD kk.toNat 0 + 0.5) ((i : ℚ) + 1)
          (rotLabel kk)]).filter (DrawCmd.isTextWith (rotLabel k))).length
        = (if rotLabel kk = rotLabel k then 1 else 0) := by
    intro i
    have h1 : DrawCmd.isTextWith (rotLabel k)
        (DrawCmd.rect (layer_start_x.getD kk.toNat 0) ((i : ℚ) + 1 - 0.25)
          1.0 0.5 "lightblue" false) = false := rfl
    have h2 : DrawCmd.isTextWith (rotLabel k)
        (DrawCmd.text (layer_start_x.getD kk.toNat 0 + 0.5) ((i : ℚ) + 1)
          (rotLabel kk)) = (rotLabel kk == rotLabel k) := rfl
    rw [List.filter_cons, List.filter_cons, List.filter_nil, h1, h2]
    by_cases h : rotLabel kk = rotLabel k
    · rw [show (rotLabel kk == rotLabel k) = true from beq_iff_eq.mpr h,
        if_pos h]
      simp
    · rw [show (rotLabel kk == rotLabel k) = false
          from beq_eq_false_iff_ne.mpr h, if_neg h]
      simp
  unfold layerCmds
  rw [List.filter_append, List.filter_append, List.length_append,
    List.length_append,
    filter_rotationCmds (DrawCmd.isTextWith (rotLabel k)) n kk
      (layer_start_x.getD kk.toNat 0) _ hcc,
    filter_entPass (DrawCmd.isTextWith (rotLabel k)) n 0 _ _ 0 (fun i => rfl),
    filter_entPass (DrawCmd.isTextWith (rotLabel k)) n 1 _ _ 0 (fun i => rfl)]
  simp

theorem count_rotLabels_drawTrace (n k : ℤ) (hk : k ∈ pyRange 3) :
    countRotLabels k (drawTrace n) = n.toNat := by
  have hq : ((qubitLineCmds n).filter (DrawCmd.isTextWith (rotLabel k))).length
      = n.toNat * 0 :=
    filter_qubitLineCmds _ n 0 (fun i => by
      have h1 : DrawCmd.isTextWith (rotLabel k)
          (DrawCmd.hline ((i : ℚ) + 1) 0.5 19.5 "black") = false := rfl
      have h2 : DrawCmd.isTextWith (rotLabel k)
          (DrawCmd.text 0 ((i : ℚ) + 1) (qubitLabel i)) = false := by
        have he : DrawCmd.isTextWith (rotLabel k)
            (DrawCmd.text 0 ((i : ℚ) + 1) (qubitLabel i))
              = (qubitLabel i == rotLabel k) := rfl
        rw [he, beq_eq_false_iff_ne]
        exact qubitLabel_ne_rotLabel i k
      simp [List.filter_cons, h1, h2])
  have hl : ((layersCmds n).filter (DrawCmd.isTextWith (rotLabel k))).length
      = n.toNat := by
    unfold layersCmds
    rw [show pyRange 3 = [0, 1, 2] from by decide]
    simp only [List.map_cons, List.map_nil, List.flatten_cons,
      List.flatten_nil, List.filter_append, List.length_append,
      List.filter_nil, List.length_nil]
    rw [count_rotLabels_layerCmds n 0 k, count_rotLabels_layerCmds n 1 k,
      count_rotLabels_layerCmds n 2 k]
    rcases mem_pyRange3 hk with rfl | rfl | rfl
    · rw [if_pos rfl, if_neg (by decide), if_neg (by decide)]; omega
    · rw [if_neg (by decide), if_pos rfl, if_neg (by decide)]; omega
    · rw [if_neg (by decide), if_neg (by decide), if_pos rfl]; omega
  have hm : ((measCmds n).filter (DrawCmd.isTextWith (rotLabel k))).length
      = n.toNat * 0 :=
    filter_measCmds _ n 0 (fun i => by
      have h1 : DrawCmd.isTextWith (rotLabel k)
          (DrawCmd.rect 17.5 ((i : ℚ) + 1 - 0.25) 1.5 0.5 "lightcoral" true)
            = false := rfl
      have h2 : DrawCmd.isTextWith (rotLabel k)
          (DrawCmd.text (17.5 + 0.75) ((i : ℚ) + 1) "Obs ($\\hat\x7bO\x7d$)")
            = false := by
        have he : DrawCmd.isTextWith (rotLabel k)
            (DrawCmd.text (17.5 + 0.75) ((i : ℚ) + 1) "Obs ($\\hat\x7bO\x7d$)")
              = ("Obs ($\\hat\x7bO\x7d$)" == rotLabel k) := rfl
        rw [he, beq_eq_false_iff_ne]
        exact const_ne_rotLabel _ 'O' (by decide) (by rfl) k
      simp [List.filter_cons, h1, h2])
  have hh : ((headerCmds n).filter (DrawCmd.isTextWith (rotLabel k))).length
      = 0 := rfl
  have hb : ((bannerCmds n).filter (DrawCmd.isTextWith (rotLabel k))).length
      = 0 := by
    have h1 : ∀ y : ℚ, DrawCmd.isTextWith (rotLabel k)
        (DrawCmd.text 9.5 y
          "PHASE 2: HYBRID QUANTUM COMPUTATION (VQE $\\rightarrow$ QSE)")
          = false := by
      intro y
      have he : DrawCmd.isTextWith (rotLabel k)
          (DrawCmd.text 9.5 y
            "PHASE 2: HYBRID QUANTUM COMPUTATION (VQE $\\rightarrow$ QSE)")
            = ("PHASE 2: HYBRID QUANTUM COMPUTATION (VQE $\\rightarrow$ QSE)"
              == rotLabel k) := rfl
      rw [he, beq_eq_false_iff_ne]
      exact const_ne_rotLabel _ 'P' (by decide) (by rfl) k
    have h2 : DrawCmd.isTextWith (rotLabel k)
        (DrawCmd.text 2.0 0.5 "VQE STATE PREPARATION") = false := by
      have he : DrawCmd.isTextWith (rotLabel k)
          (DrawCmd.text 2.0 0.5 "VQE STATE PREPARATION")
            = ("VQE STATE PREPARATION" == rotLabel k) := rfl
      rw [he, beq_eq_false_iff_ne]
      exact const_ne_rotLabel _ 'V' (by decide) (by rfl) k
    have h3 : DrawCmd.isTextWith (rotLabel k)
        (DrawCmd.text 17.0 0.5 "QSE MEASUREMENT & DIAGONALIZATION") = false := by
      have he : DrawCmd.isTextWith (rotLabel k)
          (DrawCmd.text 17.0 0.5 "QSE MEASUREMENT & DIAGONALIZATION")
            = ("QSE MEASUREMENT & DIAGONALIZATION" == rotLabel k) := rfl
      rw [he, beq_eq_false_iff_ne]
      exact const_ne_rotLabel _ 'Q' (by decide) (by rfl) k
    simp [bannerCmds, List.filter_cons, h1, h2, h3]
  have hf : (([finalText]).filter (DrawCmd.isTextWith (rotLabel k))).length
      = 0 := by
    have h1 : DrawCmd.isTextWith (rotLabel k) finalText = false := by
      have he : DrawCmd.isTextWith (rotLabel k) finalText
          = ("QSE $\\rightarrow H_\x7b\\text\x7beff\x7d\x7d$" == rotLabel k) := rfl
      rw [he, beq_eq_false_iff_ne]
      exact const_ne_rotLabel _ 'Q' (by decide) (by rfl) k
    simp [List.filter_cons, h1]
  unfold countRotLabels drawTrace
  simp only [List.filter_append, List.length_append]
  rw [hq, hl, hm, hh, hb, hf]
  omega

/-! ## Connector-pair lemmas -/

theorem filterMap_qubitLineCmds_nil (f : DrawCmd → Option (ℚ × ℚ)) (n : ℤ)
    (h : ∀ i : ℤ, (([DrawCmd.hline ((i : ℚ) + 1) 0.5 19.5 "black",
      DrawCmd.text 0 ((i : ℚ) + 1) (qubitLabel i)]).filterMap f) = []) :
    (qubitLineCmds n).filterMap f = [] := by
  unfold qubitLineCmds
  rw [filterMap_flatten_map f _ (fun _ => []) _ (fun a _ => h a),
    flatten_map_nil]

theorem filterMap_rotationCmds_nil (f : DrawCmd → Option (ℚ × ℚ)) (n k : ℤ)
    (x : ℚ)
    (h : ∀ i : ℤ,
      (([DrawCmd.rect x ((i : ℚ) + 1 - 0.25) 1.0 0.5 "lightblue" false,
        DrawCmd.text (x + 0.5) ((i : ℚ) + 1) (rotLabel k)]).filterMap f) = []) :
    (rotationCmds n k x).filterMap f = [] := by
  unfold rotationCmds
  rw [filterMap_flatten_map f _ (fun _ => []) _ (fun a _ => h a),
    flatten_map_nil]

theorem filterMap_measCmds_nil (f : DrawCmd → Option (ℚ × ℚ)) (n : ℤ)
    (h : ∀ i : ℤ,
      (([DrawCmd.rect 17.5 ((i : ℚ) + 1 - 0.25) 1.5 0.5 "lightcoral" true,
        DrawCmd.text (17.5 + 0.75) ((i : ℚ) + 1)
          "Obs ($\\hat\x7bO\x7d$)"]).filterMap f) = []) :
    (measCmds n).filterMap f = [] := by
  unfold measCmds
  rw [filterMap_flatten_map f _ (fun _ => []) _ (fun a _ => h a),
    flatten_map_nil]

theorem filterMap_entPass_nil (f : DrawCmd → Option (ℚ × ℚ)) (n start : ℤ)
    (x : ℚ) (color : String)
    (h : ∀ i : ℤ,
      (([DrawCmd.vline x ((i : ℚ) + 1 + 0.25) ((i : ℚ) + 2 - 0.25) color,
        DrawCmd.plotDot x ((i : ℚ) + 1) color,
        DrawCmd.plotCross x ((i : ℚ) + 2) color]).filterMap f) = []) :
    (entPass n start x color).filterMap f = [] := by
  unfold entPass
  rw [filterMap_flatten_map f _ (fun _ => []) _ (fun a _ => h a),
    flatten_map_nil]

theorem filterMap_entPass_red (n : ℤ) (x : ℚ) :
    (entPass n 0 x "red").filterMap connector1Pair
      = (pyRange2 0 (n - 1)).map (fun (i : ℤ) => ((i : ℚ), (i : ℚ) + 1)) := by
  have he : ∀ a ∈ pyRange2 0 (n - 1),
      (([DrawCmd.vline x ((a : ℚ) + 1 + 0.25) ((a : ℚ) + 2 - 0.25) "red",
        DrawCmd.plotDot x ((a : ℚ) + 1) "red",
        DrawCmd.plotCross x ((a : ℚ) + 2) "red"]).filterMap connector1Pair)
        = [((a : ℚ), (a : ℚ) + 1)] := by
    intro a _
    have h1 : connector1Pair
        (DrawCmd.vline x ((a : ℚ) + 1 + 0.25) ((a : ℚ) + 2 - 0.25) "red")
          = some (((a : ℚ) + 1 + 0.25) - 1.25, ((a : ℚ) + 2 - 0.25) - 0.75) :=
      rfl
    have h2 : connector1Pair (DrawCmd.plotDot x ((a : ℚ) + 1) "red")
        = none := rfl
    have h3 : connector1Pair (DrawCmd.plotCross x ((a : ℚ) + 2) "red")
        = none := rfl
    simp only [List.filterMap_cons, h1, h2, h3, List.filterMap_nil]
    simp only [List.cons.injEq, Prod.mk.injEq, and_true]
    constructor
    · ring
    · ring
  unfold entPass
  rw [filterMap_flatten_map connector1Pair _
    (fun (i : ℤ) => [((i : ℚ), (i : ℚ) + 1)]) _ he, flatten_map_singleton]

theorem filterMap_entPass_orange (n : ℤ) (x : ℚ) :
    (entPass n 1 x "orange").filterMap connector2Pair
      = (pyRange2 1 (n - 1)).map (fun (i : ℤ) => ((i : ℚ), (i : ℚ) + 1)) := by
  have he : ∀ a ∈ pyRange2 1 (n - 1),
      (([DrawCmd.vline x ((a : ℚ) + 1 + 0.25) ((a : ℚ) + 2 - 0.25) "orange",
        DrawCmd.plotDot x ((a : ℚ) + 1) "orange",
        DrawCmd.plotCross x ((a : ℚ) + 2) "orange"]).filterMap connector2Pair)
        = [((a : ℚ), (a : ℚ) + 1)] := by
    intro a _
    have h1 : connector2Pair
        (DrawCmd.vline x ((a : ℚ) + 1 + 0.25) ((a : ℚ) + 2 - 0.25) "orange")
          = some (((a : ℚ) + 1 + 0.25) - 1.25, ((a : ℚ) + 2 - 0.25) - 0.75) :=
      rfl
    have h2 : connector2Pair (DrawCmd.plotDot x ((a : ℚ) + 1) "orange")
        = none := rfl
    have h3 : connector2Pair (DrawCmd.plotCross x ((a : ℚ) + 2) "orange")
        = none := rfl
    simp only [List.filterMap_cons, h1, h2, h3, List.filterMap_nil]
    simp only [List.cons.injEq, Prod.mk.injEq, and_true]
    constructor
    · ring
    · ring
  unfold entPass
  rw [filterMap_flatten_map connector2Pair _
    (fun (i : ℤ) => [((i : ℚ), (i : ℚ) + 1)]) _ he, flatten_map_singleton]

theorem entPairs_even (n : ℤ) :
    (pyRange2 0 (n - 1)).map (fun (i : ℤ) => ((i : ℚ), (i : ℚ) + 1))
      = evenAdjPairs n := by
  unfold pyRange2 evenAdjPairs
  rw [List.map_map, show n - 1 - 0 + 1 = n from by ring]
  apply map_ext_mem
  intro j _
  simp only [Function.comp_apply, Prod.mk.injEq]
  constructor
  · push_cast
    ring
  · push_cast
    ring

theorem entPairs_odd (n : ℤ) :
    (pyRange2 1 (n - 1)).map (fun (i : ℤ) => ((i : ℚ), (i : ℚ) + 1))
      = oddAdjPairs n := by
  unfold pyRange2 oddAdjPairs
  rw [List.map_map, show n - 1 - 1 + 1 = n - 1 from by ring,
    show (n - 1).toNat = n.toNat - 1 from by omega]
  apply map_ext_mem
  intro j _
  simp only [Function.comp_apply, Prod.mk.injEq]
  constructor
  · push_cast
    ring
  · push_cast
    ring

theorem pass1Pairs_layerCmds (n kk : ℤ) :
    (layerCmds n kk).filterMap connector1Pair = evenAdjPairs n := by
  unfold layerCmds
  rw [List.filterMap_append, List.filterMap_append,
    filterMap_rotationCmds_nil connector1Pair n kk _ (fun i => rfl),
    filterMap_entPass_red n _,
    filterMap_entPass_nil connector1Pair n 1 _ "orange" (fun i => rfl),
    entPairs_even]
  simp

theorem pass2Pairs_layerCmds (n kk : ℤ) :
    (layerCmds n kk).filterMap connector2Pair = oddAdjPairs n := by
  unfold layerCmds
  rw [List.filterMap_append, List.filterMap_append,
    filterMap_rotationCmds_nil connector2Pair n kk _ (fun i => rfl),
    filterMap_entPass_nil connector2Pair n 0 _ "red" (fun i => rfl),
    filterMap_entPass_orange n _,
    entPairs_odd]
  simp

theorem pass1Pairs_drawTrace (n : ℤ) :
    pass1Pairs (drawTrace n)
      = evenAdjPairs n ++ evenAdjPairs n ++ evenAdjPairs n := by
  unfold pass1Pairs drawTrace layersCmds
  rw [show pyRange 3 = [0, 1, 2] from by decide]
  simp only [List.map_cons, List.map_nil, List.flatten_cons, List.flatten_nil,
    List.filterMap_append, List.filterMap_nil]
  rw [filterMap_qubitLineCmds_nil connector1Pair n (fun i => rfl),
    filterMap_measCmds_nil connector1Pair n (fun i => rfl),
    pass1Pairs_layerCmds n 0, pass1Pairs_layerCmds n 1,
    pass1Pairs_layerCmds n 2,
    show (headerCmds n).filterMap connector1Pair = [] from rfl,
    show (bannerCmds n).filterMap connector1Pair = [] from rfl,
    show ([finalText]).filterMap connector1Pair = [] from rfl]
  simp

theorem pass2Pairs_drawTrace (n : ℤ) :
    pass2Pairs (drawTrace n)
      = oddAdjPairs n ++ oddAdjPairs n ++ oddAdjPairs n := by
  unfold pass2Pairs drawTrace layersCmds
  rw [show pyRange 3 = [0, 1, 2] from by decide]
  simp only [List.map_cons, List.map_nil, List.flatten_cons, List.flatten_nil,
    List.filterMap_append, List.filterMap_nil]
  rw [filterMap_qubitLineCmds_nil connector2Pair n (fun i => rfl),
    filterMap_measCmds_nil connector2Pair n (fun i => rfl),
    pass2Pairs_layerCmds n 0, pass2Pairs_layerCmds n 1,
    pass2Pairs_layerCmds n 2,
    show (headerCmds n).filterMap connector2Pair = [] from rfl,
    show (bannerCmds n).filterMap connector2Pair = [] from rfl,
    show ([finalText]).filterMap connector2Pair = [] from rfl]
  simp

/-- Every even-aligned pair is adjacent, starts at an even index `≥ 0`,
and stays within qubit index `n - 1`. -/
theorem evenAdjPairs_bound (n : ℤ) (p : ℚ × ℚ) (hp : p ∈ evenAdjPairs n) :
    0 ≤ p.1 ∧ p.2 = p.1 + 1 ∧ p.2 ≤ (n : ℚ) - 1 := by
  unfold evenAdjPairs at hp
  simp only [List.mem_map, List.mem_range] at hp
  obtain ⟨j, hj, rfl⟩ := hp
  refine ⟨?_, ?_, ?_⟩
  · show (0 : ℚ) ≤ 2 * (j : ℚ)
    positivity
  · show 2 * (j : ℚ) + 1 = 2 * (j : ℚ) + 1
    rfl
  · show 2 * (j : ℚ) + 1 ≤ (n : ℚ) - 1
    have h3 : (2 * (j : ℤ) + 2 : ℤ) ≤ n := by omega
    have h4 : ((2 * (j : ℤ) + 2 : ℤ) : ℚ) ≤ (n : ℚ) := by exact_mod_cast h3
    push_cast at h4
    linarith

/-- Every odd-aligned pair is adjacent, starts at an index `≥ 1`, and
stays within qubit index `n - 1`. -/
theorem oddAdjPairs_bound (n : ℤ) (p : ℚ × ℚ) (hp : p ∈ oddAdjPairs n) :
    1 ≤ p.1 ∧ p.2 = p.1 + 1 ∧ p.2 ≤ (n : ℚ) - 1 := by
  unfold oddAdjPairs at hp
  simp only [List.mem_map, List.mem_range] at hp
  obtain ⟨j, hj, rfl⟩ := hp
  refine ⟨?_, ?_, ?_⟩
  · show (1 : ℚ) ≤ 2 * (j : ℚ) + 1
    have h0 : (0 : ℚ) ≤ (j : ℚ) := by positivity
    linarith
  · show 2 * (j : ℚ) + 2 = 2 * (j : ℚ) + 1 + 1
    ring
  · show 2 * (j : ℚ) + 2 ≤ (n : ℚ) - 1
    have h3 : (2 * (j : ℤ) + 3 : ℤ) ≤ n := by omega
    have h4 : ((2 * (j : ℤ) + 3 : ℤ) : ℚ) ≤ (n : ℚ) := by exact_mod_cast h3
    push_cast at h4
    linarith

/-! ## The fallible renderer never raises -/

theorem pyIndex_ok {α : Type} (xs : List α) (i : ℤ) (h0 : 0 ≤ i)
    (hlt : i.toNat < xs.length) :
    pyIndex xs i = Except.ok (xs.get ⟨i.toNat, hlt⟩) := by
  have hnorm : pyNorm xs.length i = i := by
    unfold pyNorm
    rw [if_neg (show ¬ i < 0 by omega)]
  unfold pyIndex
  rw [hnorm, List.get?_eq_get hlt, decide_eq_true h0]

theorem pyIndex_pyRange_map {α : Type} (g : ℤ → α) (n i : ℤ) (h0 : 0 ≤ i)
    (hn : i < n) : pyIndex ((pyRange n).map g) i = Except.ok (g i) := by
  have hlt : i.toNat < ((pyRange n).map g).length := by
    rw [List.length_map, pyRange_length]
    omega
  rw [pyIndex_ok _ _ h0 hlt]
  congr 1
  have hg : ((pyRange n).map g).get ⟨i.toNat, hlt⟩
      = ((pyRange n).map g)[i.toNat] := rfl
  rw [hg, List.getElem_map]
  congr 1
  have hr : i.toNat < (List.range n.toNat).length := by
    rw [List.length_range]
    omega
  have hr2 : i.toNat < ((List.range n.toNat).map (fun (j : ℕ) => (j : ℤ))).length := by
    rw [List.length_map]
    exact hr
  show ((List.range n.toNat).map (fun (j : ℕ) => (j : ℤ)))[i.toNat] = i
  rw [List.getElem_map, List.getElem_range]
  omega

theorem forCollect_ok {α β : Type} (xs : List α)
    (f : α → Except String (List β)) (g : α → List β)
    (h : ∀ a ∈ xs, f a = Except.ok (g a)) :
    forCollect xs f = Except.ok ((xs.map g).flatten) := by
  induction xs with
  | nil => rfl
  | cons a t ih =>
    unfold forCollect
    rw [h a (by simp), ih (fun b hb => h b (by simp [hb]))]
    rfl

/-- The renderer completes without raising on every integer input: the
only fallible operations are the two in-bounds list indexings. -/
theorem drawE_ok (n : ℤ) : drawE n = Except.ok (drawTrace n) := by
  have hline : ∀ i ∈ pyRange n, (do
      let lab ← pyIndex ((pyRange n).map qubitLabel) i
      pure [DrawCmd.hline ((i : ℚ) + 1) 0.5 19.5 "black",
            DrawCmd.text 0 ((i : ℚ) + 1) lab] : Except String (List DrawCmd))
        = Except.ok [DrawCmd.hline ((i : ℚ) + 1) 0.5 19.5 "black",
            DrawCmd.text 0 ((i : ℚ) + 1) (qubitLabel i)] := by
    intro i hi
    obtain ⟨h0, hn⟩ := mem_pyRange hi
    rw [pyIndex_pyRange_map qubitLabel n i h0 hn]
    rfl
  have h1 : forCollect (pyRange n) (fun (i : ℤ) => do
      let lab ← pyIndex ((pyRange n).map qubitLabel) i
      pure [DrawCmd.hline ((i : ℚ) + 1) 0.5 19.5 "black",
            DrawCmd.text 0 ((i : ℚ) + 1) lab])
      = Except.ok (qubitLineCmds n) :=
    forCollect_ok (pyRange n) _
      (fun (i : ℤ) => [DrawCmd.hline ((i : ℚ) + 1) 0.5 19.5 "black",
        DrawCmd.text 0 ((i : ℚ) + 1) (qubitLabel i)]) hline
  have h2 : forCollect (pyRange 3) (fun (k : ℤ) => do
      let x_rot ← pyIndex layer_start_x k
      pure (rotationCmds n k x_rot ++ entPass n 0 (x_rot + 1.5) "red"
        ++ entPass n 1 (x_rot + 1.5 + 1.0) "orange"))
      = Except.ok (layersCmds n) :=
    forCollect_ok (pyRange 3) _ (layerCmds n) (by
      intro k hk
      rcases mem_pyRange3 hk with rfl | rfl | rfl <;> rfl)
  unfold drawE
  rw [h1, h2]
  rfl

/-! ## Concrete pair lists for the canonical 8-qubit input -/

theorem evenAdjPairs_eight :
    evenAdjPairs 8 = [(0, 1), (2, 3), (4, 5), (6, 7)] := by
  unfold evenAdjPairs
  rw [show ((8 : ℤ).toNat / 2) = 4 from rfl,
    show List.range 4 = [0, 1, 2, 3] from by decide]
  simp only [List.map_cons, List.map_nil]
  norm_num

theorem oddAdjPairs_eight :
    oddAdjPairs 8 = [(1, 2), (3, 4), (5, 6)] := by
  unfold oddAdjPairs
  rw [show (((8 : ℤ).toNat - 1) / 2) = 3 from rfl,
    show List.range 3 = [0, 1, 2] from by decide]
  simp only [List.map_cons, List.map_nil]
  norm_num

/-! ## Claim theorems -/

/-- C1 (counterexample): at `qubitCount = 0` (an input with
`qubitCount < 1`) the renderer does not raise: it returns its figure
normally, and the figure is not empty (title, banner and region labels
are still drawn) — contradicting the claim that such inputs raise
`InvalidLayoutInput` and produce no partial drawing. -/
theorem claim_C1_counterexample :
    drawE 0 = Except.ok (drawTrace 0) ∧ drawTrace 0 ≠ [] :=
  ⟨drawE_ok 0, by decide⟩

/-- C1 (amended): the renderer never raises, for any integer
`qubitCount`; for `qubitCount < 1` it degrades to a figure with no qubit
lines, no rotation boxes, no connectors and no measurement boxes (only
the fixed title, banner and region labels), and for `qubitCount ≥ 1` it
likewise completes without raising. -/
theorem claim_C1 : ∀ n : ℤ, drawE n = Except.ok (drawTrace n) ∧
    (n < 1 → countQubitLines (drawTrace n) = 0 ∧
      countRotationBoxes (drawTrace n) = 0 ∧
      countConnectors (drawTrace n) = 0 ∧
      countMeasurementBoxes (drawTrace n) = 0) := by
  intro n
  refine ⟨drawE_ok n, fun hn => ⟨?_, ?_, ?_, ?_⟩⟩
  · rw [count_qubitLines_drawTrace]
    omega
  · rw [count_rotBoxes_drawTrace]
    omega
  · rw [count_connectors_drawTrace]
    omega
  · rw [count_measBoxes_drawTrace]
    omega

/-- C1 witness: the amended claim instantiated at `qubitCount = 0`. -/
theorem claim_C1_witness :
    drawE 0 = Except.ok (drawTrace 0) ∧
    (countQubitLines (drawTrace 0) = 0 ∧
      countRotationBoxes (drawTrace 0) = 0 ∧
      countConnectors (drawTrace 0) = 0 ∧
      countMeasurementBoxes (drawTrace 0) = 0) :=
  ⟨(claim_C1 0).1, (claim_C1 0).2 (by decide)⟩

/-- C2 (counterexample): at `qubitCount = 1` and `repetitionLayers = 0`
the claim demands `1 × 0 = 0` rotation boxes, but the code draws 3: the
layer loop is hardwired to `range(3)` and ignores any repetition-layer
parameter. -/
theorem claim_C2_counterexample :
    countRotationBoxes (drawTrace 1) = 3 ∧ (3 : ℕ) ≠ 1 * 0 :=
  ⟨by decide, by decide⟩

/-- C2 (amended): the renderer always draws exactly 3 repetition layers
(the loop bound is the literal `range(3)`), so for every
`qubitCount ≥ 1` it draws exactly `qubitCount × 3` rotation-gate boxes,
and for each layer index `k ∈ {0,1,2}` exactly `qubitCount` of their
labels carry that layer index. -/
theorem claim_C2 : ∀ n : ℤ, 1 ≤ n →
    countRotationBoxes (drawTrace n) = 3 * n.toNat ∧
    ∀ k ∈ pyRange 3, countRotLabels k (drawTrace n) = n.toNat :=
  fun n _ => ⟨count_rotBoxes_drawTrace n,
    fun k hk => count_rotLabels_drawTrace n k hk⟩

/-- C2 witness: the amended claim instantiated at `qubitCount = 8` and
layer index `k = 0`. -/
theorem claim_C2_witness :
    countRotationBoxes (drawTrace 8) = 3 * (8 : ℤ).toNat ∧
    countRotLabels 0 (drawTrace 8) = (8 : ℤ).toNat :=
  ⟨(claim_C2 8 (by decide)).1, (claim_C2 8 (by decide)).2 0 (by decide)⟩

/-- C3: the canonical input (`qubitCount = 8`, the hardwired 3 layers)
yields exactly 8 qubit lines, 24 rotation boxes, 12 pass-1 connectors at
pairs (0,1),(2,3),(4,5),(6,7) in each of the 3 layers, 9 pass-2
connectors at pairs (1,2),(3,4),(5,6) in each of the 3 layers, and 8
terminal measurement boxes. -/
theorem claim_C3 :
    countQubitLines (drawTrace 8) = 8 ∧
    countRotationBoxes (drawTrace 8) = 24 ∧
    pass1Pairs (drawTrace 8)
      = [(0, 1), (2, 3), (4, 5), (6, 7), (0, 1), (2, 3), (4, 5), (6, 7),
         (0, 1), (2, 3), (4, 5), (6, 7)] ∧
    (pass1Pairs (drawTrace 8)).length = 12 ∧
    pass2Pairs (drawTrace 8)
      = [(1, 2), (3, 4), (5, 6), (1, 2), (3, 4), (5, 6), (1, 2), (3, 4),
         (5, 6)] ∧
    (pass2Pairs (drawTrace 8)).length = 9 ∧
    countMeasurementBoxes (drawTrace 8) = 8 := by
  have h1 : pass1Pairs (drawTrace 8)
      = [(0, 1), (2, 3), (4, 5), (6, 7), (0, 1), (2, 3), (4, 5), (6, 7),
         (0, 1), (2, 3), (4, 5), (6, 7)] := by
    rw [pass1Pairs_drawTrace 8, evenAdjPairs_eight]
    rfl
  have h2 : pass2Pairs (drawTrace 8)
      = [(1, 2), (3, 4), (5, 6), (1, 2), (3, 4), (5, 6), (1, 2), (3, 4),
         (5, 6)] := by
    rw [pass2Pairs_drawTrace 8, oddAdjPairs_eight]
    rfl
  refine ⟨by decide, by decide, h1, ?_, h2, ?_, by decide⟩
  · rw [h1]
    rfl
  · rw [h2]
    rfl

/-- C4: in every repetition layer, pass 1 connects exactly the
even-aligned adjacent pairs and pass 2 exactly the odd-aligned adjacent
pairs (the trace's pass-1 pair list is three copies of the even pairs
and the pass-2 list three copies of the odd pairs, one copy per layer),
and every connector stays within qubit indices `0 .. qubitCount - 1`. -/
theorem claim_C4 : ∀ n : ℤ, 1 ≤ n →
    pass1Pairs (drawTrace n)
      = evenAdjPairs n ++ evenAdjPairs n ++ evenAdjPairs n ∧
    pass2Pairs (drawTrace n)
      = oddAdjPairs n ++ oddAdjPairs n ++ oddAdjPairs n ∧
    (∀ p ∈ pass1Pairs (drawTrace n),
      0 ≤ p.1 ∧ p.2 = p.1 + 1 ∧ p.2 ≤ (n : ℚ) - 1) ∧
    (∀ p ∈ pass2Pairs (drawTrace n),
      1 ≤ p.1 ∧ p.2 = p.1 + 1 ∧ p.2 ≤ (n : ℚ) - 1) := by
  intro n _
  refine ⟨pass1Pairs_drawTrace n, pass2Pairs_drawTrace n, ?_, ?_⟩
  · intro p hp
    rw [pass1Pairs_drawTrace n] at hp
    rcases List.mem_append.mp hp with hp2 | hp2
    · rcases List.mem_append.mp hp2 with hp3 | hp3
      · exact evenAdjPairs_bound n p hp3
      · exact evenAdjPairs_bound n p hp3
    · exact evenAdjPairs_bound n p hp2
  · intro p hp
    rw [pass2Pairs_drawTrace n] at hp
    rcases List.mem_append.mp hp with hp2 | hp2
    · rcases List.mem_append.mp hp2 with hp3 | hp3
      · exact oddAdjPairs_bound n p hp3
      · exact oddAdjPairs_bound n p hp3
    · exact oddAdjPairs_bound n p hp2

/-- C4 witness: the claim instantiated at `qubitCount = 8`, with the
bound checked at the concrete pass-1 pair (0, 1). -/
theorem claim_C4_witness :
    pass1Pairs (drawTrace 8)
      = evenAdjPairs 8 ++ evenAdjPairs 8 ++ evenAdjPairs 8 ∧
    (0 ≤ (((0 : ℚ), (1 : ℚ))).1 ∧ (((0 : ℚ), (1 : ℚ))).2
      = (((0 : ℚ), (1 : ℚ))).1 + 1 ∧ (((0 : ℚ), (1 : ℚ))).2
      ≤ ((8 : ℤ) : ℚ) - 1) := by
  have hmem : ((0 : ℚ), (1 : ℚ)) ∈ pass1Pairs (drawTrace 8) := by
    rw [pass1Pairs_drawTrace 8, evenAdjPairs_eight]
    simp
  exact ⟨(claim_C4 8 (by decide)).1,
    (claim_C4 8 (by decide)).2.2.1 ((0 : ℚ), (1 : ℚ)) hmem⟩

/-- C5: for every `qubitCount ≥ 1` the renderer draws exactly
`qubitCount` horizontal qubit lines and exactly `qubitCount` index
labels at the left margin `x = 0`. -/
theorem claim_C5 : ∀ n : ℤ, 1 ≤ n →
    countQubitLines (drawTrace n) = n.toNat ∧
    countIndexLabels (drawTrace n) = n.toNat :=
  fun n _ => ⟨count_qubitLines_drawTrace n, count_indexLabels_drawTrace n⟩

/-- C5 witness: the claim instantiated at `qubitCount = 3`. -/
theorem claim_C5_witness :
    countQubitLines (drawTrace 3) = (3 : ℤ).toNat ∧
    countIndexLabels (drawTrace 3) = (3 : ℤ).toNat :=
  claim_C5 3 (by decide)

/-- C6: at `qubitCount = 1` the renderer draws zero entanglement
connectors and completes without raising. The repetition-layer count is
the hardwired literal 3 and is not an input of the renderer, so this
holds regardless of any intended `repetitionLayers` value: both
entanglement passes are empty in each of the 3 layers. -/
theorem claim_C6 :
    countConnectors (drawTrace 1) = 0 ∧ drawE 1 = Except.ok (drawTrace 1) :=
  ⟨by decide, drawE_ok 1⟩

/-- C7: rendering is deterministic and idempotent: two calls of `draw`
with the same ansatz and the same (ignored) argument lists produce
identical drawing-call sequences. -/
theorem claim_C7 : ∀ (a b : MockUCCSDAnsatz) (args1 args2 : List PyVal)
    (kw1 kw2 : List (String × PyVal)), a = b → args1 = args2 → kw1 = kw2 →
    MockUCCSDAnsatz.draw a args1 kw1 = MockUCCSDAnsatz.draw b args2 kw2 := by
  intro a b args1 args2 kw1 kw2 h1 h2 h3
  rw [h1, h2, h3]

/-- C7 witness: two identical calls at the script's own call site
(`draw("mpl", idle_wires=False, fold=-1)` on the 8-qubit ansatz). -/
theorem claim_C7_witness :
    MockUCCSDAnsatz.draw (MockUCCSDAnsatz.make 8 (4, 4)) [PyVal.str "mpl"]
      [("idle_wires", PyVal.bool false), ("fold", PyVal.int (-1))]
    = MockUCCSDAnsatz.draw (MockUCCSDAnsatz.make 8 (4, 4)) [PyVal.str "mpl"]
      [("idle_wires", PyVal.bool false), ("fold", PyVal.int (-1))] :=
  claim_C7 _ _ _ _ _ _ rfl rfl rfl

/-- C8: the drawing depends only on `num_qubits`: two ansatz instances
with equal `num_qubits` but arbitrary `num_particles`, drawn with
arbitrary positional and keyword arguments, produce identical
drawing-call sequences. -/
theorem claim_C8 : ∀ (a b : MockUCCSDAnsatz) (args1 args2 : List PyVal)
    (kw1 kw2 : List (String × PyVal)), a.num_qubits = b.num_qubits →
    MockUCCSDAnsatz.draw a args1 kw1 = MockUCCSDAnsatz.draw b args2 kw2 := by
  intro a b args1 args2 kw1 kw2 h
  unfold MockUCCSDAnsatz.draw
  rw [h]

/-- C8 witness: ansatze with `num_qubits = 8` but different
`num_particles` and different argument lists draw identically. -/
theorem claim_C8_witness :
    MockUCCSDAnsatz.draw (MockUCCSDAnsatz.make 8 (4, 4)) [PyVal.str "mpl"]
      [("idle_wires", PyVal.bool false), ("fold", PyVal.int (-1))]
    = MockUCCSDAnsatz.draw (MockUCCSDAnsatz.make 8 (2, 2)) [] [] :=
  claim_C8 _ _ _ _ _ _ rfl

/-- C9: `decompose` is the identity, so `a.decompose().draw(...)`
produces the same figure as `a.draw(...)` for every argument list. -/
theorem claim_C9 : ∀ (a : MockUCCSDAnsatz) (args : List PyVal)
    (kw : List (String × PyVal)),
    MockUCCSDAnsatz.decompose a = a ∧
    MockUCCSDAnsatz.draw (MockUCCSDAnsatz.decompose a) args kw
      = MockUCCSDAnsatz.draw a args kw :=
  fun _ _ _ => ⟨rfl, rfl⟩

set_option maxRecDepth 20000 in
/-- C10 (counterexample): at `exact_energy = 2^45`
(`⟨4503599627370496, -7⟩` in binary64) the pipeline completes normally
(`vqe_error = 0.046875 ≠ 0`, so the improvement division does not
raise), yet both `+0.002` and the subsequent `-0.0019` are absorbed by
rounding (each offset is below half an ulp, `2^-8 = 0.00390625`), so the
returned final corrected energy equals the exact reference energy —
refuting the claim that it never does (and, with it, the exact-identity
readings of `E_qse = exact + 0.002` and `E_final = exact + 0.0001`). -/
theorem claim_C10_counterexample :
    finalEnergyOf (run_vqe_qse (MockSparsePauliOp.mk 8) 8 (4, 4)
        (flOfDec 5922055 1000000) (F64.mk 4503599627370496 (-7)))
      = some (F64.mk 4503599627370496 (-7)) := by
  decide

set_option maxRecDepth 20000 in
/-- C10 (amended): whenever `run_vqe_qse` completes (it raises
`ZeroDivisionError` instead when rounding makes `vqe_error` zero), the
returned energies are the binary64 evaluations
`E_vqe = exact_energy ⊕ 0.045`, `E_qse = exact_energy ⊕ 0.002` and
`E_final = E_qse ⊕ (-0.0019)` (`⊕` the correctly rounded addition); at
the script's actual input `exact_energy = -40.176466` the pipeline
completes and the final corrected energy differs from the exact
reference energy by about `+0.0001` (exactly
`3518437209 / 2^45`), in particular it does not equal it. For
large-magnitude inputs the offsets can be absorbed by rounding, so the
inequality is not universal. -/
theorem claim_C10 :
    (∀ (qubit_op : MockSparsePauliOp) (num_qubits : ℤ)
      (num_particles : ℤ × ℤ) (nre exact_energy : F64),
      run_vqe_qse qubit_op num_qubits num_particles nre exact_energy
        = Except.map (fun _ =>
            (MockUCCSDAnsatz.make num_qubits num_particles,
             flAdd exact_energy (flOfDec 45 1000),
             flAdd exact_energy (flOfDec 2 1000),
             flAdd (flAdd exact_energy (flOfDec 2 1000))
               (flNeg (flOfDec 19 10000))))
          (flDivChecked
            (flSub
              (flAbs (flSub (flAdd exact_energy (flOfDec 45 1000))
                exact_energy))
              (flAbs (flSub (flAdd exact_energy (flOfDec 2 1000))
                exact_energy)))
            (flAbs (flSub (flAdd exact_energy (flOfDec 45 1000))
              exact_energy)))) ∧
    finalEnergyOf (run_vqe_qse (MockSparsePauliOp.mk 8) 8 (4, 4)
        (flOfDec 5922055 1000000) (flOfDec (-40176466) 1000000))
      = some (F64.mk (-5654320842084395) (-47)) ∧
    F64.mk (-5654320842084395) (-47) ≠ flOfDec (-40176466) 1000000 ∧
    (F64.mk (-5654320842084395) (-47)).toRat
      - (flOfDec (-40176466) 1000000).toRat = 3518437209 / 2 ^ 45 := by
  refine ⟨?_, by decide, by decide, ?_⟩
  · intro qubit_op num_qubits num_particles nre exact_energy
    unfold run_vqe_qse
    cases hfd : flDivChecked
        (flSub
          (flAbs (flSub (flAdd exact_energy (flOfDec 45 1000)) exact_energy))
          (flAbs (flSub (flAdd exact_energy (flOfDec 2 1000)) exact_energy)))
        (flAbs (flSub (flAdd exact_energy (flOfDec 45 1000)) exact_energy)) with
    | error err => rfl
    | ok quotient => rfl
  · rw [show flOfDec (-40176466) 1000000 = F64.mk (-5654334915833231) (-47)
      from by decide]
    show ((-5654320842084395 : ℤ) : ℚ) * (2 : ℚ) ^ (-47 : ℤ)
        - ((-5654334915833231 : ℤ) : ℚ) * (2 : ℚ) ^ (-47 : ℤ)
      = 3518437209 / 2 ^ 45
    simp only [zpow_neg]
    rw [show ((2 : ℚ) ^ (47 : ℤ)) = 140737488355328 from by norm_num]
    push_cast
    norm_num
